import Mathlib

/-!
# Verification of the PGA gradient-propagation runtime

A shallow embedding of the DataFlowSanitizer-based derivative-tracking
runtime (`dfsan.cc` together with the `DFSAN_INT_UNION` / `DFSAN_FLOAT_UNION`
macros of `gradtest_macros.h`), and proofs about the label table, the
derivative propagation engine, shadow memory and the provenance DAG.

Modelling conventions:

* `dfsan_label` is a 16-bit unsigned integer; we model labels as `Nat` and
  keep the 2^16 wrap-around of the allocation counter explicit.
* C `float` values are modelled exactly, as fractions (`Frac`), extended
  with a NaN element (`FVal`).  All operations the runtime performs on
  derivatives (add, sub, mul, div, comparison with small constants, IEEE
  `==`, truncating casts to integers) are given their exact rational
  meaning; IEEE rounding is not modelled.  NaN compares unequal to
  everything, including itself, exactly as IEEE `==` does.
* The integer union function is modelled at the `__dfsan_union_long`
  instantiation of the `DFSAN_INT_UNION` macro: `Type = long`
  (64-bit signed), `UnsignedDivType = uint64_t`, `SignedDivType = long`,
  `BitwiseType = long`.  64-bit machine arithmetic is modelled on `Int`
  with explicit wrapping (`wrap64`, `toU64`, ...); the `int f_val` field
  keeps its 32-bit truncation (`wrap32`).
* Fatal events (`Die()` on label exhaustion, the `assert(false)` in the
  signed-division-by-zero branch, the `Die()` on mismatched labels in
  `__dfsan_union_load`, SIGFPE from an integer division by zero) are
  modelled by returning `none`.
* The observation log (branch / argument ring buffers) only records data
  and never influences the values computed here; it is not modelled.
-/

/-! ## Exact rationals with NaN: the model of C `float` -/

/-- An unnormalised fraction `num / den` with `den > 0` by construction.
Kept unnormalised so that every operation is kernel-computable. -/
structure Frac where
  num : Int
  den : Nat
  deriving DecidableEq, Repr

def Frac.ofInt (n : Int) : Frac := ⟨n, 1⟩

def Frac.ofNat (n : Nat) : Frac := ⟨(n : Int), 1⟩

def Frac.add (a b : Frac) : Frac := ⟨a.num * b.den + b.num * a.den, a.den * b.den⟩

def Frac.sub (a b : Frac) : Frac := ⟨a.num * b.den - b.num * a.den, a.den * b.den⟩

def Frac.mul (a b : Frac) : Frac := ⟨a.num * b.num, a.den * b.den⟩

/-- Division of fractions; only used with a nonzero divisor. -/
def Frac.div (a b : Frac) : Frac :=
  ⟨a.num * b.den * (if b.num < 0 then -1 else 1), a.den * b.num.natAbs⟩

/-- Value equality of fractions (cross multiplication). -/
def Frac.equiv (a b : Frac) : Prop := a.num * b.den = b.num * a.den

instance (a b : Frac) : Decidable (Frac.equiv a b) := by
  unfold Frac.equiv; infer_instance

/-- Truncation towards zero, the C `(long)` / `(int)` cast of a float. -/
def Frac.trunc (a : Frac) : Int := Int.tdiv a.num a.den

/-- `-0.00001 < a && a < 0.00001`, the "still near zero" test of the
finite-difference loops. -/
def Frac.nearZero (a : Frac) : Bool :=
  decide (-(a.den : Int) < a.num * 100000 ∧ a.num * 100000 < (a.den : Int))

/-- A C `float` value: either NaN or an exact rational. -/
inductive FVal where
  | nan : FVal
  | val : Frac → FVal
  deriving DecidableEq, Repr

def FVal.zero : FVal := .val ⟨0, 1⟩

def FVal.one : FVal := .val ⟨1, 1⟩

def FVal.add : FVal → FVal → FVal
  | .val a, .val b => .val (a.add b)
  | _, _ => .nan

def FVal.sub : FVal → FVal → FVal
  | .val a, .val b => .val (a.sub b)
  | _, _ => .nan

def FVal.mul : FVal → FVal → FVal
  | .val a, .val b => .val (a.mul b)
  | _, _ => .nan

/-- Float division.  The runtime only divides by nonzero sample steps or by
an operand it has checked to be nonzero, so the `b.num = 0` case is never
exercised on those paths; it is mapped to NaN. -/
def FVal.div : FVal → FVal → FVal
  | .val a, .val b => if b.num = 0 then .nan else .val (a.div b)
  | _, _ => .nan

/-- IEEE `==`: NaN is unequal to everything, values compare by magnitude. -/
def FVal.feq : FVal → FVal → Bool
  | .val a, .val b => decide (Frac.equiv a b)
  | _, _ => false

/-- The `(dydx > -0.00001 && dydx < 0.00001)` test; false on NaN because both
IEEE comparisons are false on NaN. -/
def FVal.nearZero : FVal → Bool
  | .val a => a.nearZero
  | .nan => false

/-- The C cast of a float to a 64-bit integer (truncation towards zero).
Casting NaN is undefined behaviour in C; the model returns 0. -/
def FVal.toInt : FVal → Int
  | .val a => a.trunc
  | .nan => 0

/-- Multiplication by the loop counter, C `smp * dx` (int times float). -/
def FVal.scale (k : Nat) (a : FVal) : FVal := FVal.mul (.val (Frac.ofNat k)) a

/-! ## 64-bit / 32-bit machine integer helpers -/

/-- Interpret an integer as its 64-bit two's-complement value. -/
def wrap64 (z : Int) : Int := Int.emod (z + 2 ^ 63) (2 ^ 64) - 2 ^ 63

/-- The `int` (32-bit) truncation used for the `f_val` field. -/
def wrap32 (z : Int) : Int := Int.emod (z + 2 ^ 31) (2 ^ 32) - 2 ^ 31

/-- Reinterpret a signed 64-bit value as `uint64_t`. -/
def toU64 (z : Int) : Nat := (Int.emod z (2 ^ 64)).toNat

/-- Reinterpret a `uint64_t` as a signed 64-bit value. -/
def toI64 (n : Nat) : Int := wrap64 (n : Int)

/-- `uint64_t` subtraction (wrap-around). -/
def u64sub (a b : Nat) : Nat := (a + 2 ^ 64 - b % 2 ^ 64) % 2 ^ 64

/-- `uint64_t` addition (wrap-around). -/
def u64add (a b : Nat) : Nat := (a + b) % 2 ^ 64

/-- 64-bit signed addition. -/
def add64 (a b : Int) : Int := wrap64 (a + b)

/-- 64-bit signed subtraction. -/
def sub64 (a b : Int) : Int := wrap64 (a - b)

/-- Shift count as the hardware masks it (count taken mod 64). -/
def shAmt (b : Int) : Nat := (Int.emod b 64).toNat

/-- 64-bit `<<` on signed operands. -/
def shl64 (a b : Int) : Int := wrap64 (a * 2 ^ shAmt b)

/-- 64-bit arithmetic `>>` on signed operands (floor division). -/
def ashr64 (a b : Int) : Int := Int.fdiv a (2 ^ shAmt b)

/-- 64-bit logical `>>` on unsigned operands. -/
def lshrU64 (a : Nat) (b : Nat) : Nat := a / 2 ^ (b % 64)

/-- 64-bit bitwise ops on signed operands, via the unsigned representation. -/
def land64 (a b : Int) : Int := toI64 (Nat.land (toU64 a) (toU64 b))

def lor64 (a b : Int) : Int := toI64 (Nat.lor (toU64 a) (toU64 b))

def lxor64 (a b : Int) : Int := toI64 (Nat.xor (toU64 a) (toU64 b))

/-! ## Opcodes (from `include/llvm/IR/Instruction.def`, as listed in dfsan.cc) -/

def ADD : Nat := 11
def FADD : Nat := 12
def SUB : Nat := 13
def FSUB : Nat := 14
def MUL : Nat := 15
def FMUL : Nat := 16
def UDIV : Nat := 17
def SDIV : Nat := 18
def FDIV : Nat := 19
def UREM : Nat := 20
def SREM : Nat := 21
def FREM : Nat := 22
def SHL : Nat := 23
def LSHR : Nat := 24
def ASHR : Nat := 25
def AND : Nat := 26
def OR : Nat := 27
def XOR : Nat := 28
def GETELEMENTPTRT : Nat := 32
def SELECT : Nat := 55

/-! ## Label table state -/

/-- One `dfsan_label_info` entry: parents, source location, one-sided
derivatives, producing opcode and last concrete value. -/
structure LabelInfo where
  l1 : Nat
  l2 : Nat
  loc : String
  neg_dydx : FVal
  pos_dydx : FVal
  opcode : Nat
  f_val : Int
  deriving DecidableEq, Repr

/-- The zero-initialised entry (static storage / after `dfsan_flush`). -/
def LabelInfo.clear : LabelInfo :=
  { l1 := 0, l2 := 0, loc := "", neg_dydx := FVal.zero, pos_dydx := FVal.zero
    opcode := 0, f_val := 0 }

/-- Runtime state of the label table: the 16-bit allocation counter
`__dfsan_last_label` and the `__dfsan_label_info` array. -/
structure RTState where
  lastLabel : Nat
  info : Nat → LabelInfo

/-- The freshly initialised (or just flushed) state. -/
def initState : RTState := { lastLabel := 0, info := fun _ => LabelInfo.clear }

/-- Number of representable labels (`kNumLabels = 1 << 16`). -/
def kNumLabels : Nat := 65536

/-- `kInitializingLabel = (dfsan_label)-1`; reaching it is fatal. -/
def kInitializingLabel : Nat := 65535

/-- `dfsan_create_label`: bump the (wrapping, 16-bit) counter, die if the
new label is the initializing sentinel, and fill in the entry with unit
derivatives and no parents.  `none` models `Die()`. -/
def dfsan_create_label (desc : String) (s : RTState) : Option (RTState × Nat) :=
  let label := (s.lastLabel + 1) % kNumLabels
  if label = kInitializingLabel then none
  else
    some ({ lastLabel := label
            info := fun l => if l = label then
                { s.info label with
                  l1 := 0
                  l2 := 0
                  loc := desc
                  neg_dydx := FVal.one
                  pos_dydx := FVal.one }
              else s.info l }, label)

/-! ## Flags (`dfsan_flags.inc` is configuration; the flag values are
parameters of the model) -/

structure Flags where
  reuse_labels : Bool
  samples : Nat
  gep_default : Bool
  select_default : Bool
  default_nan : Bool
  deriving Repr

/-! ## Finite-difference sampling loops of `DFSAN_INT_UNION`
(at the `__dfsan_union_long` instantiation)

Each loop carries the pair `(neg_dydx, pos_dydx)`; a one-sided derivative is
overwritten only while it is still near zero.  Loops whose body performs an
integer division return `none` when a sampled divisor is zero (SIGFPE in C).
Offsets grow linearly (`smp`) for `UREM`, `SREM`, `SHL`, `OR`, `XOR`, and
geometrically (`offset`, an `unsigned int` doubled each iteration) for
`LSHR`, `ASHR`, `AND`. -/

/-- The C cast of a float to `uint64_t` (truncation, then reinterpretation). -/
def toU64F (v : FVal) : Nat := toU64 v.toInt

/-- 64-bit signed multiplication. -/
def mul64 (a b : Int) : Int := wrap64 (a * b)

/-- `UREM` sampling loop (unsigned 64-bit remainder, linear offsets). -/
def uremGo (ux1 ux2 y : Nat) (nd1 pd1 nd2 pd2 : FVal) :
    Nat → Nat → FVal × FVal → Option (FVal × FVal)
  | _, 0, st => some st
  | smp, rem + 1, (nd, pd) =>
    let dneg := u64sub ux2 (toU64F (FVal.scale smp nd2))
    if dneg = 0 then none else
    let negY := u64sub ux1 (toU64F (FVal.scale smp nd1)) % dneg
    let nd' := if nd.nearZero then
        FVal.div (.val (Frac.ofNat (u64sub y negY))) (.val (Frac.ofNat smp))
      else nd
    let dpos := u64add ux2 (toU64F (FVal.scale smp pd2))
    if dpos = 0 then none else
    let posY := u64add ux1 (toU64F (FVal.scale smp pd1)) % dpos
    let pd' := if pd.nearZero then
        FVal.div (.val (Frac.ofNat (u64sub posY y))) (.val (Frac.ofNat smp))
      else pd
    uremGo ux1 ux2 y nd1 pd1 nd2 pd2 (smp + 1) rem (nd', pd')

/-- `SREM` sampling loop (signed 64-bit remainder, linear offsets). -/
def sremGo (x1 x2 : Int) (y : Int) (nd1 pd1 nd2 pd2 : FVal) :
    Nat → Nat → FVal × FVal → Option (FVal × FVal)
  | _, 0, st => some st
  | smp, rem + 1, (nd, pd) =>
    let dneg := sub64 x2 (FVal.scale smp nd2).toInt
    if dneg = 0 then none else
    let negY := Int.tmod (sub64 x1 (FVal.scale smp nd1).toInt) dneg
    let nd' := if nd.nearZero then
        FVal.div (.val (Frac.ofInt (sub64 y negY))) (.val (Frac.ofNat smp))
      else nd
    let dpos := add64 x2 (FVal.scale smp pd2).toInt
    if dpos = 0 then none else
    let posY := Int.tmod (add64 x1 (FVal.scale smp pd1).toInt) dpos
    let pd' := if pd.nearZero then
        FVal.div (.val (Frac.ofInt (sub64 posY y))) (.val (Frac.ofNat smp))
      else pd
    sremGo x1 x2 y nd1 pd1 nd2 pd2 (smp + 1) rem (nd', pd')

/-- `SHL` sampling loop (signed 64-bit shift left, linear offsets). -/
def shlGo (x1 x2 : Int) (y : Int) (nd1 pd1 nd2 pd2 : FVal) :
    Nat → Nat → FVal × FVal → FVal × FVal
  | _, 0, st => st
  | smp, rem + 1, (nd, pd) =>
    let negY := shl64 (sub64 x1 (FVal.scale smp nd1).toInt)
                      (sub64 x2 (FVal.scale smp nd2).toInt)
    let nd' := if nd.nearZero then
        FVal.div (.val (Frac.ofInt (sub64 y negY))) (.val (Frac.ofNat smp))
      else nd
    let posY := shl64 (add64 x1 (FVal.scale smp pd1).toInt)
                      (add64 x2 (FVal.scale smp pd2).toInt)
    let pd' := if pd.nearZero then
        FVal.div (.val (Frac.ofInt (sub64 posY y))) (.val (Frac.ofNat smp))
      else pd
    shlGo x1 x2 y nd1 pd1 nd2 pd2 (smp + 1) rem (nd', pd')

/-- `LSHR` sampling loop (unsigned 64-bit shift right, geometric offsets:
`offset` is an `unsigned int` starting at 1 and doubled each iteration). -/
def lshrGo (x1 x2 : Int) (y : Nat) (nd1 pd1 nd2 pd2 : FVal) :
    Nat → Nat → Nat → FVal × FVal → FVal × FVal
  | _, 0, _, st => st
  | smp, rem + 1, offset, (nd, pd) =>
    let negY := lshrU64 (u64sub (toU64 x1) (toU64F (FVal.scale offset nd1)))
                        (u64sub (toU64 x2) (toU64F (FVal.scale offset nd2)))
    let nd' := if nd.nearZero then
        FVal.div (.val (Frac.ofNat (u64sub y negY))) (.val (Frac.ofNat offset))
      else nd
    let posY := lshrU64 (u64add (toU64 x1) (toU64F (FVal.scale offset pd1)))
                        (u64add (toU64 x2) (toU64F (FVal.scale offset pd2)))
    let pd' := if pd.nearZero then
        FVal.div (.val (Frac.ofNat (u64sub posY y))) (.val (Frac.ofNat offset))
      else pd
    lshrGo x1 x2 y nd1 pd1 nd2 pd2 (smp + 1) rem (offset * 2 % 2 ^ 32) (nd', pd')

/-- `ASHR` sampling loop (signed 64-bit shift right, geometric offsets). -/
def ashrGo (x1 x2 : Int) (y : Int) (nd1 pd1 nd2 pd2 : FVal) :
    Nat → Nat → Nat → FVal × FVal → FVal × FVal
  | _, 0, _, st => st
  | smp, rem + 1, offset, (nd, pd) =>
    let negY := ashr64 (sub64 x1 (FVal.scale offset nd1).toInt)
                       (sub64 x2 (FVal.scale offset nd2).toInt)
    let nd' := if nd.nearZero then
        FVal.div (.val (Frac.ofInt (sub64 y negY))) (.val (Frac.ofNat offset))
      else nd
    let posY := ashr64 (add64 x1 (FVal.scale offset pd1).toInt)
                       (add64 x2 (FVal.scale offset pd2).toInt)
    let pd' := if pd.nearZero then
        FVal.div (.val (Frac.ofInt (sub64 posY y))) (.val (Frac.ofNat offset))
      else pd
    ashrGo x1 x2 y nd1 pd1 nd2 pd2 (smp + 1) rem (offset * 2 % 2 ^ 32) (nd', pd')

/-- `AND` sampling loop (signed 64-bit bitwise and, geometric offsets). -/
def andGo (x1 x2 : Int) (y : Int) (nd1 pd1 nd2 pd2 : FVal) :
    Nat → Nat → Nat → FVal × FVal → FVal × FVal
  | _, 0, _, st => st
  | smp, rem + 1, offset, (nd, pd) =>
    let negY := land64 (sub64 x1 (FVal.scale offset nd1).toInt)
                       (sub64 x2 (FVal.scale offset nd2).toInt)
    let nd' := if nd.nearZero then
        FVal.div (.val (Frac.ofInt (sub64 y negY))) (.val (Frac.ofNat offset))
      else nd
    let posY := land64 (add64 x1 (FVal.scale offset pd1).toInt)
                       (add64 x2 (FVal.scale offset pd2).toInt)
    let pd' := if pd.nearZero then
        FVal.div (.val (Frac.ofInt (sub64 posY y))) (.val (Frac.ofNat offset))
      else pd
    andGo x1 x2 y nd1 pd1 nd2 pd2 (smp + 1) rem (offset * 2 % 2 ^ 32) (nd', pd')

/-- `OR` sampling loop (signed 64-bit bitwise or, linear offsets). -/
def orGo (x1 x2 : Int) (y : Int) (nd1 pd1 nd2 pd2 : FVal) :
    Nat → Nat → FVal × FVal → FVal × FVal
  | _, 0, st => st
  | smp, rem + 1, (nd, pd) =>
    let negY := lor64 (sub64 x1 (FVal.scale smp nd1).toInt)
                      (sub64 x2 (FVal.scale smp nd2).toInt)
    let nd' := if nd.nearZero then
        FVal.div (.val (Frac.ofInt (sub64 y negY))) (.val (Frac.ofNat smp))
      else nd
    let posY := lor64 (add64 x1 (FVal.scale smp pd1).toInt)
                      (add64 x2 (FVal.scale smp pd2).toInt)
    let pd' := if pd.nearZero then
        FVal.div (.val (Frac.ofInt (sub64 posY y))) (.val (Frac.ofNat smp))
      else pd
    orGo x1 x2 y nd1 pd1 nd2 pd2 (smp + 1) rem (nd', pd')

/-- `XOR` sampling loop (signed 64-bit bitwise xor, linear offsets). -/
def xorGo (x1 x2 : Int) (y : Int) (nd1 pd1 nd2 pd2 : FVal) :
    Nat → Nat → FVal × FVal → FVal × FVal
  | _, 0, st => st
  | smp, rem + 1, (nd, pd) =>
    let negY := lxor64 (sub64 x1 (FVal.scale smp nd1).toInt)
                       (sub64 x2 (FVal.scale smp nd2).toInt)
    let nd' := if nd.nearZero then
        FVal.div (.val (Frac.ofInt (sub64 y negY))) (.val (Frac.ofNat smp))
      else nd
    let posY := lxor64 (add64 x1 (FVal.scale smp pd1).toInt)
                       (add64 x2 (FVal.scale smp pd2).toInt)
    let pd' := if pd.nearZero then
        FVal.div (.val (Frac.ofInt (sub64 posY y))) (.val (Frac.ofNat smp))
      else pd
    xorGo x1 x2 y nd1 pd1 nd2 pd2 (smp + 1) rem (nd', pd')

/-! ## The `DFSAN_INT_UNION` opcode switch and glue -/

/-- The opcode switch of `DFSAN_INT_UNION`: from the operand values and the
four fetched input derivatives, compute `(neg_dydx, pos_dydx, f_val)`.
`f_val` starts out as `-1` and is only assigned in the arithmetic arms.
`none` models a fatal event: the `assert(false)` reached on a signed
division by zero, or a SIGFPE from a remainder with zero divisor. -/
def intDeriv (fl : Flags) (x1 x2 : Int) (nd1 pd1 nd2 pd2 : FVal)
    (opcode : Nat) : Option (FVal × FVal × Int) :=
  if opcode = ADD then
    some (FVal.add nd1 nd2, FVal.add pd1 pd2, wrap32 (add64 x1 x2))
  else if opcode = SUB then
    some (FVal.sub nd1 nd2, FVal.sub pd1 pd2, wrap32 (sub64 x1 x2))
  else if opcode = MUL then
    some (FVal.add (FVal.mul (.val (Frac.ofInt x1)) nd2) (FVal.mul (.val (Frac.ofInt x2)) nd1),
          FVal.add (FVal.mul (.val (Frac.ofInt x1)) pd2) (FVal.mul (.val (Frac.ofInt x2)) pd1),
          wrap32 (mul64 x1 x2))
  else if opcode = SDIV then
    if x2 ≠ 0 then
      some (FVal.div (FVal.sub (FVal.mul (.val (Frac.ofInt x2)) nd1)
                               (FVal.mul (.val (Frac.ofInt x1)) nd2)) (.val (Frac.ofInt x2)),
            FVal.div (FVal.sub (FVal.mul (.val (Frac.ofInt x2)) pd1)
                               (FVal.mul (.val (Frac.ofInt x1)) pd2)) (.val (Frac.ofInt x2)),
            wrap32 (Int.tdiv x1 x2))
    else none
  else if opcode = UREM then
    let ux1 := toU64 x1
    let ux2 := toU64 x2
    if ux2 = 0 then none else
    let y := ux1 % ux2
    (uremGo ux1 ux2 y nd1 pd1 nd2 pd2 1 fl.samples (FVal.zero, FVal.zero)).map
      (fun st => (st.1, st.2, wrap32 (y : Int)))
  else if opcode = SREM then
    if x2 = 0 then none else
    let y := Int.tmod x1 x2
    (sremGo x1 x2 y nd1 pd1 nd2 pd2 1 fl.samples (FVal.zero, FVal.zero)).map
      (fun st => (st.1, st.2, wrap32 y))
  else if opcode = SHL then
    let y := shl64 x1 x2
    let st := shlGo x1 x2 y nd1 pd1 nd2 pd2 1 fl.samples (FVal.zero, FVal.zero)
    some (st.1, st.2, wrap32 y)
  else if opcode = LSHR then
    let y := toU64 (ashr64 x1 x2)
    let st := lshrGo x1 x2 y nd1 pd1 nd2 pd2 1 fl.samples 1 (FVal.zero, FVal.zero)
    some (st.1, st.2, wrap32 (y : Int))
  else if opcode = ASHR then
    let y := ashr64 x1 x2
    let st := ashrGo x1 x2 y nd1 pd1 nd2 pd2 1 fl.samples 1 (FVal.zero, FVal.zero)
    some (st.1, st.2, wrap32 y)
  else if opcode = AND then
    let y := land64 x1 x2
    let st := andGo x1 x2 y nd1 pd1 nd2 pd2 1 fl.samples 1 (FVal.zero, FVal.zero)
    some (st.1, st.2, wrap32 y)
  else if opcode = OR then
    let y := lor64 x1 x2
    let st := orGo x1 x2 y nd1 pd1 nd2 pd2 1 fl.samples (FVal.zero, FVal.zero)
    some (st.1, st.2, wrap32 y)
  else if opcode = XOR then
    let y := lxor64 x1 x2
    let st := xorGo x1 x2 y nd1 pd1 nd2 pd2 1 fl.samples (FVal.zero, FVal.zero)
    some (st.1, st.2, wrap32 y)
  else if opcode = GETELEMENTPTRT then
    if fl.gep_default then some (FVal.one, FVal.one, -1)
    else some (FVal.zero, FVal.zero, -1)
  else if opcode = SELECT then
    if fl.select_default then some (FVal.one, FVal.one, -1)
    else some (FVal.zero, FVal.zero, -1)
  else
    if fl.default_nan then some (FVal.nan, FVal.nan, -1)
    else some (FVal.zero, FVal.zero, -1)

/-- The input derivatives of `DFSAN_INT_UNION` / `DFSAN_FLOAT_UNION`: 0 for
an unlabeled operand, the table entry's value otherwise. -/
def negIn (s : RTState) (l : Nat) : FVal :=
  if l ≠ 0 then (s.info l).neg_dydx else FVal.zero

def posIn (s : RTState) (l : Nat) : FVal :=
  if l ≠ 0 then (s.info l).pos_dydx else FVal.zero

/-- `DFSAN_INT_UNION` (as instantiated for `__dfsan_union_long`): fast path
for two untainted inputs, fetch, optional zero-derivative label reuse,
opcode switch, optional exact-derivative label reuse, and allocation of a
new label recording parents / opcode / derivatives / value / location.
`none` models a fatal event (label exhaustion, `assert(false)`, SIGFPE). -/
def combineInt (fl : Flags) (l1 l2 : Nat) (x1 x2 : Int) (opcode : Nat)
    (loc : String) (s : RTState) : Option (RTState × Nat) :=
  if l1 = 0 ∧ l2 = 0 then some (s, 0)
  else
    let nd1 := negIn s l1
    let pd1 := posIn s l1
    let nd2 := negIn s l2
    let pd2 := posIn s l2
    if fl.reuse_labels ∧ FVal.feq nd1 FVal.zero ∧ FVal.feq pd1 FVal.zero ∧
        FVal.feq nd2 FVal.zero ∧ FVal.feq pd2 FVal.zero then
      some (s, if l1 ≠ 0 then l1 else l2)
    else
      match intDeriv fl x1 x2 nd1 pd1 nd2 pd2 opcode with
      | none => none
      | some (neg, pos, fv) =>
        if fl.reuse_labels ∧ l1 ≠ 0 ∧ FVal.feq pos pd1 ∧ FVal.feq neg nd1 then
          some (s, l1)
        else if fl.reuse_labels ∧ l2 ≠ 0 ∧ FVal.feq pos pd2 ∧ FVal.feq neg nd2 then
          some (s, l2)
        else
          let label := (s.lastLabel + 1) % kNumLabels
          if label = kInitializingLabel then none
          else
            some ({ lastLabel := label
                    info := fun l => if l = label then
                        { l1 := l1, l2 := l2, loc := loc, neg_dydx := neg
                          pos_dydx := pos, opcode := opcode, f_val := fv }
                      else s.info l }, label)

/-! ## The `DFSAN_FLOAT_UNION` switch and glue -/

/-- Exact `fmod`: `x - trunc(x / y) * y`, NaN when the divisor is zero. -/
def fmodF : FVal → FVal → FVal
  | .val a, .val b =>
    if b.num = 0 then .nan
    else .val (a.sub ((Frac.ofInt ((a.div b).trunc)).mul b))
  | _, _ => .nan

/-- The opcode switch of `DFSAN_FLOAT_UNION`: no `f_val` is produced and no
arm is fatal; a float division by zero yields NaN derivatives. -/
def floatDeriv (fl : Flags) (x1 x2 : Frac) (nd1 pd1 nd2 pd2 : FVal)
    (opcode : Nat) : FVal × FVal :=
  if opcode = FADD then (FVal.add nd1 nd2, FVal.add pd1 pd2)
  else if opcode = FSUB then (FVal.sub nd1 nd2, FVal.sub pd1 pd2)
  else if opcode = FMUL then
    (FVal.add (FVal.mul (.val x1) nd2) (FVal.mul (.val x2) nd1),
     FVal.add (FVal.mul (.val x1) pd2) (FVal.mul (.val x2) pd1))
  else if opcode = FDIV then
    if x2.num ≠ 0 then
      (FVal.div (FVal.sub (FVal.mul (.val x2) nd1) (FVal.mul (.val x1) nd2)) (.val x2),
       FVal.div (FVal.sub (FVal.mul (.val x2) pd1) (FVal.mul (.val x1) pd2)) (.val x2))
    else (FVal.nan, FVal.nan)
  else if opcode = FREM then
    let y := fmodF (.val x1) (.val x2)
    let negY := fmodF (FVal.sub (.val x1) nd1) (FVal.sub (.val x2) nd2)
    let posY := fmodF (FVal.add (.val x1) pd1) (FVal.add (.val x2) pd2)
    (FVal.sub y negY, FVal.sub posY y)
  else
    if fl.default_nan then (FVal.nan, FVal.nan)
    else (FVal.zero, FVal.zero)

/-- `DFSAN_FLOAT_UNION` (as instantiated for `__dfsan_union_float` /
`__dfsan_union_double`): same structure as the integer union, but the entry's
`f_val` field is not assigned (it keeps its previous contents). -/
def combineFloat (fl : Flags) (l1 l2 : Nat) (x1 x2 : Frac) (opcode : Nat)
    (loc : String) (s : RTState) : Option (RTState × Nat) :=
  if l1 = 0 ∧ l2 = 0 then some (s, 0)
  else
    let nd1 := negIn s l1
    let pd1 := posIn s l1
    let nd2 := negIn s l2
    let pd2 := posIn s l2
    if fl.reuse_labels ∧ FVal.feq nd1 FVal.zero ∧ FVal.feq pd1 FVal.zero ∧
        FVal.feq nd2 FVal.zero ∧ FVal.feq pd2 FVal.zero then
      some (s, if l1 ≠ 0 then l1 else l2)
    else
      let dv := floatDeriv fl x1 x2 nd1 pd1 nd2 pd2 opcode
      if fl.reuse_labels ∧ l1 ≠ 0 ∧ FVal.feq dv.2 pd1 ∧ FVal.feq dv.1 nd1 then
        some (s, l1)
      else if fl.reuse_labels ∧ l2 ≠ 0 ∧ FVal.feq dv.2 pd2 ∧ FVal.feq dv.1 nd2 then
        some (s, l2)
      else
        let label := (s.lastLabel + 1) % kNumLabels
        if label = kInitializingLabel then none
        else
          some ({ lastLabel := label
                  info := fun l => if l = label then
                      { s.info label with
                        l1 := l1
                        l2 := l2
                        loc := loc
                        neg_dydx := dv.1
                        pos_dydx := dv.2
                        opcode := opcode }
                    else s.info l }, label)

/-! ## Shadow memory -/

/-- `__dfsan_set_label`: walk the `size` shadow slots starting at `addr`,
skipping the write when the slot already holds `label` (the copy-on-write
optimisation).  The returned list records the addresses actually written. -/
def setLabelGo (label : Nat) : Nat → Nat → ((Nat → Nat) × List Nat) → ((Nat → Nat) × List Nat)
  | _, 0, sw => sw
  | addr, size + 1, (shadow, ws) =>
    if label = shadow addr then
      setLabelGo label (addr + 1) size (shadow, ws)
    else
      setLabelGo label (addr + 1) size
        (fun a => if a = addr then label else shadow a, ws ++ [addr])

/-- `dfsan_set_label` / `__dfsan_set_label` on a shadow memory modelled as a
map from slot index to label. -/
def dfsan_set_label (label : Nat) (addr size : Nat) (shadow : Nat → Nat) :
    (Nat → Nat) × List Nat :=
  setLabelGo label addr size (shadow, [])

/-- `__dfsan_union_load`: start from the first slot's label and `Die()`
(`none`) as soon as some later slot disagrees. -/
def unionLoadGo (label : Nat) : List Nat → Option Nat
  | [] => some label
  | next :: rest => if label ≠ next then none else unionLoadGo label rest

/-- The labels of the `n` slots starting at `start`. -/
def shadowSlots (shadow : Nat → Nat) : Nat → Nat → List Nat
  | _, 0 => []
  | start, n + 1 => shadow start :: shadowSlots shadow (start + 1) n

/-- `dfsan_read_label`: 0 for an empty range, otherwise `__dfsan_union_load`
over the range's shadow slots. -/
def dfsan_read_label (shadow : Nat → Nat) (addr size : Nat) : Option Nat :=
  if size = 0 then some 0
  else unionLoadGo (shadow addr) (shadowSlots shadow (addr + 1) (size - 1))

/-! ## Provenance membership -/

/-- `dfsan_has_label`, with explicit fuel standing in for the C recursion:
`label == elem` succeeds; otherwise the parents are searched, but only when
`parent1` is nonzero.  Under the DAG invariant the recursion depth is at most
the label value, so `label + 1` fuel (see `dfsan_has_label`) is exact. -/
def hasLabelFuel (info : Nat → LabelInfo) : Nat → Nat → Nat → Bool
  | 0, _, _ => false
  | fuel + 1, label, elem =>
    if label = elem then true
    else if (info label).l1 ≠ 0 then
      hasLabelFuel info fuel (info label).l1 elem ||
      hasLabelFuel info fuel (info label).l2 elem
    else false

def dfsan_has_label (s : RTState) (label elem : Nat) : Bool :=
  hasLabelFuel s.info (label + 1) label elem

/-! ## Reachable runtime states

The propagation entry points are called by instrumented code with labels
that exist (are 0 or were previously returned by the runtime, hence are at
most the current value of the allocation counter). -/

/-- States reachable from a fresh runtime by `dfsan_create_label`, the two
union functions, and `dfsan_flush` (reset). -/
inductive Reachable : RTState → Prop where
  | init : Reachable initState
  | create {s s' : RTState} {desc : String} {l : Nat} :
      Reachable s → dfsan_create_label desc s = some (s', l) → Reachable s'
  | unionInt {s s' : RTState} {fl : Flags} {l1 l2 : Nat} {x1 x2 : Int}
      {opcode : Nat} {loc : String} {l : Nat} :
      Reachable s → l1 ≤ s.lastLabel → l2 ≤ s.lastLabel →
      combineInt fl l1 l2 x1 x2 opcode loc s = some (s', l) → Reachable s'
  | unionFloat {s s' : RTState} {fl : Flags} {l1 l2 : Nat} {x1 x2 : Frac}
      {opcode : Nat} {loc : String} {l : Nat} :
      Reachable s → l1 ≤ s.lastLabel → l2 ≤ s.lastLabel →
      combineFloat fl l1 l2 x1 x2 opcode loc s = some (s', l) → Reachable s'
  | reset {s : RTState} : Reachable s → Reachable initState

/-- `n` consecutive `dfsan_create_label` calls (used for the capacity
analysis); `none` as soon as one of them dies. -/
def iterCreate : Nat → RTState → Option RTState
  | 0, s => some s
  | n + 1, s => (iterCreate n s).bind fun s' =>
      (dfsan_create_label "byte" s').map Prod.fst

/-! ## Specification-side definitions

These follow the wording of the specification (not the code) and are used
to compare the code's behaviour against the spec's description. -/

/-- Modelled from the spec: the finite-difference sampler as §4.2 describes
it.  At sample `k` each operand is perturbed using offset `off k`; a
one-sided derivative keeps the first sampled output delta (divided by the
step, which is the offset) that is no longer near zero.  `dneg`/`dpos` give
the observed output deltas as a function of the offset. -/
def specSample (off : Nat → Nat) (dneg dpos : Nat → Frac) :
    Nat → Nat → FVal × FVal → FVal × FVal
  | _, 0, st => st
  | k, r + 1, (nd, pd) =>
    let o := off k
    let nd' := if nd.nearZero then FVal.div (.val (dneg o)) (.val (Frac.ofNat o)) else nd
    let pd' := if pd.nearZero then FVal.div (.val (dpos o)) (.val (Frac.ofNat o)) else pd
    specSample off dneg dpos (k + 1) r (nd', pd')

/-- Modelled from the spec: the same sampler for operations whose sampled
evaluation can itself be fatal (remainder by a perturbed zero divisor);
`none` aborts the sampling. -/
def specSampleD (off : Nat → Nat) (dneg dpos : Nat → Option Frac) :
    Nat → Nat → FVal × FVal → Option (FVal × FVal)
  | _, 0, st => some st
  | k, r + 1, (nd, pd) =>
    let o := off k
    match dneg o with
    | none => none
    | some fn =>
      let nd' := if nd.nearZero then FVal.div (.val fn) (.val (Frac.ofNat o)) else nd
      match dpos o with
      | none => none
      | some fp =>
        let pd' := if pd.nearZero then FVal.div (.val fp) (.val (Frac.ofNat o)) else pd
        specSampleD off dneg dpos (k + 1) r (nd', pd')

/-- The geometric offset schedule the spec prescribes: 1, 2, 4, ... -/
def geomOff (k : Nat) : Nat := 2 ^ (k - 1)

/-- The linear offset schedule: 1, 2, 3, ... -/
def linOff (k : Nat) : Nat := k

/-- Observed output deltas of a perturbed `SHL`, as a function of the
offset: each operand is moved by `offset * (its own derivative)`. -/
def shlDeltas (x1 x2 y : Int) (nd1 pd1 nd2 pd2 : FVal) :
    (Nat → Frac) × (Nat → Frac) :=
  (fun o => Frac.ofInt (sub64 y (shl64 (sub64 x1 (FVal.scale o nd1).toInt)
                                       (sub64 x2 (FVal.scale o nd2).toInt))),
   fun o => Frac.ofInt (sub64 (shl64 (add64 x1 (FVal.scale o pd1).toInt)
                                     (add64 x2 (FVal.scale o pd2).toInt)) y))

/-- Observed output deltas of a perturbed `OR`. -/
def orDeltas (x1 x2 y : Int) (nd1 pd1 nd2 pd2 : FVal) :
    (Nat → Frac) × (Nat → Frac) :=
  (fun o => Frac.ofInt (sub64 y (lor64 (sub64 x1 (FVal.scale o nd1).toInt)
                                       (sub64 x2 (FVal.scale o nd2).toInt))),
   fun o => Frac.ofInt (sub64 (lor64 (add64 x1 (FVal.scale o pd1).toInt)
                                     (add64 x2 (FVal.scale o pd2).toInt)) y))

/-- Observed output deltas of a perturbed `XOR`. -/
def xorDeltas (x1 x2 y : Int) (nd1 pd1 nd2 pd2 : FVal) :
    (Nat → Frac) × (Nat → Frac) :=
  (fun o => Frac.ofInt (sub64 y (lxor64 (sub64 x1 (FVal.scale o nd1).toInt)
                                        (sub64 x2 (FVal.scale o nd2).toInt))),
   fun o => Frac.ofInt (sub64 (lxor64 (add64 x1 (FVal.scale o pd1).toInt)
                                      (add64 x2 (FVal.scale o pd2).toInt)) y))

/-- Observed output deltas of a perturbed `AND`. -/
def andDeltas (x1 x2 y : Int) (nd1 pd1 nd2 pd2 : FVal) :
    (Nat → Frac) × (Nat → Frac) :=
  (fun o => Frac.ofInt (sub64 y (land64 (sub64 x1 (FVal.scale o nd1).toInt)
                                        (sub64 x2 (FVal.scale o nd2).toInt))),
   fun o => Frac.ofInt (sub64 (land64 (add64 x1 (FVal.scale o pd1).toInt)
                                      (add64 x2 (FVal.scale o pd2).toInt)) y))

/-- Observed output deltas of a perturbed `ASHR`. -/
def ashrDeltas (x1 x2 y : Int) (nd1 pd1 nd2 pd2 : FVal) :
    (Nat → Frac) × (Nat → Frac) :=
  (fun o => Frac.ofInt (sub64 y (ashr64 (sub64 x1 (FVal.scale o nd1).toInt)
                                        (sub64 x2 (FVal.scale o nd2).toInt))),
   fun o => Frac.ofInt (sub64 (ashr64 (add64 x1 (FVal.scale o pd1).toInt)
                                      (add64 x2 (FVal.scale o pd2).toInt)) y))

/-- Observed output deltas of a perturbed `LSHR` (unsigned). -/
def lshrDeltas (x1 x2 : Int) (y : Nat) (nd1 pd1 nd2 pd2 : FVal) :
    (Nat → Frac) × (Nat → Frac) :=
  (fun o => Frac.ofNat (u64sub y (lshrU64 (u64sub (toU64 x1) (toU64F (FVal.scale o nd1)))
                                          (u64sub (toU64 x2) (toU64F (FVal.scale o nd2))))),
   fun o => Frac.ofNat (u64sub (lshrU64 (u64add (toU64 x1) (toU64F (FVal.scale o pd1)))
                                        (u64add (toU64 x2) (toU64F (FVal.scale o pd2)))) y))

/-- Observed output deltas of a perturbed `UREM` (`none`: zero divisor). -/
def uremDeltas (ux1 ux2 y : Nat) (nd1 pd1 nd2 pd2 : FVal) :
    (Nat → Option Frac) × (Nat → Option Frac) :=
  (fun o =>
    let d := u64sub ux2 (toU64F (FVal.scale o nd2))
    if d = 0 then none
    else some (Frac.ofNat (u64sub y (u64sub ux1 (toU64F (FVal.scale o nd1)) % d))),
   fun o =>
    let d := u64add ux2 (toU64F (FVal.scale o pd2))
    if d = 0 then none
    else some (Frac.ofNat (u64sub (u64add ux1 (toU64F (FVal.scale o pd1)) % d) y)))

/-- Observed output deltas of a perturbed `SREM` (`none`: zero divisor). -/
def sremDeltas (x1 x2 y : Int) (nd1 pd1 nd2 pd2 : FVal) :
    (Nat → Option Frac) × (Nat → Option Frac) :=
  (fun o =>
    let d := sub64 x2 (FVal.scale o nd2).toInt
    if d = 0 then none
    else some (Frac.ofInt (sub64 y (Int.tmod (sub64 x1 (FVal.scale o nd1).toInt) d))),
   fun o =>
    let d := add64 x2 (FVal.scale o pd2).toInt
    if d = 0 then none
    else some (Frac.ofInt (sub64 (Int.tmod (add64 x1 (FVal.scale o pd1).toInt) d) y)))

/-- The provenance relation as the spec describes it: `elem` is reachable
from `label` by transitively following the `parent1` / `parent2` links (a
zero parent is "no parent" and is not a link). -/
inductive ProvReach (info : Nat → LabelInfo) : Nat → Nat → Prop where
  | refl (l : Nat) : ProvReach info l l
  | parent1 {l e : Nat} : (info l).l1 ≠ 0 →
      ProvReach info ((info l).l1) e → ProvReach info l e
  | parent2 {l e : Nat} : (info l).l2 ≠ 0 →
      ProvReach info ((info l).l2) e → ProvReach info l e

/-- The provenance relation the code actually computes: the parents of a
node are explored only when its `parent1` is nonzero (in particular the
`parent2` link of a node whose `parent1` is 0 is never followed). -/
inductive GReach (info : Nat → LabelInfo) : Nat → Nat → Prop where
  | refl (l : Nat) : GReach info l l
  | parent1 {l e : Nat} : (info l).l1 ≠ 0 →
      GReach info ((info l).l1) e → GReach info l e
  | parent2 {l e : Nat} : (info l).l1 ≠ 0 →
      GReach info ((info l).l2) e → GReach info l e

/-! ## Concrete fixtures used by witnesses and counterexamples -/

/-- Flags with label reuse disabled, 2 finite-difference samples. -/
def noReuseFlags : Flags :=
  { reuse_labels := false, samples := 2, gep_default := true
    select_default := true, default_nan := true }

/-- Same, with 3 samples (enough to separate the offset schedules). -/
def noReuseFlags3 : Flags := { noReuseFlags with samples := 3 }

/-- Same, with the unsupported-opcode default derivative set to 0. -/
def noReuseFlagsZ : Flags := { noReuseFlags with default_nan := false }

/-- Flags with label reuse enabled and zero (not NaN) unsupported default. -/
def reuseFlagsZ : Flags :=
  { reuse_labels := true, samples := 2, gep_default := true
    select_default := true, default_nan := false }

/-- The state after creating one label (label 1, unit derivatives). -/
def stateA : RTState :=
  ((dfsan_create_label "x" initState).map Prod.fst).getD initState

/-- A table holding label 1 with derivatives `(1, 1)` and label 2 with
derivatives `(2, 2)` (the spec's additive-linearity fixture). -/
def infoAB : Nat → LabelInfo := fun l =>
  if l = 1 then
    { l1 := 0, l2 := 0, loc := "a", neg_dydx := .val ⟨1, 1⟩
      pos_dydx := .val ⟨1, 1⟩, opcode := 0, f_val := 0 }
  else if l = 2 then
    { l1 := 0, l2 := 0, loc := "b", neg_dydx := .val ⟨2, 1⟩
      pos_dydx := .val ⟨2, 1⟩, opcode := 0, f_val := 0 }
  else LabelInfo.clear

def stateAB : RTState := { lastLabel := 2, info := infoAB }

/-- `stateA` extended by label 2 with zero derivatives and `f_val = -1`
(produced by an unsupported opcode, here `LOAD = 30`, with
`default_nan = false`). -/
def stateZ : RTState :=
  ((combineInt noReuseFlagsZ 1 0 0 0 30 "" stateA).map Prod.fst).getD initState

/-- A table holding label 1 with derivatives `(2/5, 2/5)`. -/
def infoQ : Nat → LabelInfo := fun l =>
  if l = 1 then
    { l1 := 0, l2 := 0, loc := "q", neg_dydx := .val ⟨2, 5⟩
      pos_dydx := .val ⟨2, 5⟩, opcode := 0, f_val := 0 }
  else LabelInfo.clear

def stateQ : RTState := { lastLabel := 1, info := infoQ }

/-- `stateA` extended by label 2 := `combineInt` of `(l1 = 0, l2 = 1)`:
a label whose `parent1` is 0 but whose `parent2` is nonzero. -/
def stateP : RTState :=
  ((combineInt noReuseFlags 0 1 3 4 ADD "" stateA).map Prod.fst).getD initState

/-- A shadow memory with differing labels on slots 0 and 1. -/
def shadowMix : Nat → Nat := fun a => if a = 0 then 1 else 2

/-- A shadow memory holding label 5 everywhere. -/
def shadowFive : Nat → Nat := fun _ => 5

/-! ## Claim C1: zero short-circuit -/

/-- C1: for every opcode and every pair of concrete operand values, both
union functions called with two zero labels return label 0 immediately and
leave the label table untouched (no allocation, no entry written): the
returned state is exactly the input state. -/
theorem combine_zero_zero_fast_path (fl : Flags) (opcode : Nat) (x1 x2 : Int)
    (q1 q2 : Frac) (loc : String) (s : RTState) :
    combineInt fl 0 0 x1 x2 opcode loc s = some (s, 0) ∧
    combineFloat fl 0 0 q1 q2 opcode loc s = some (s, 0) := by
  constructor <;> rfl

/-! ## Claim C5: label-pool capacity -/

/-- After `n ≤ 2^16 - 2` allocations from a fresh table, all have succeeded
and the counter stands at `n`. -/
theorem iterCreate_state : ∀ n, n ≤ 65534 →
    (iterCreate n initState).map RTState.lastLabel = some n := by
  intro n
  induction n with
  | zero => intro _; rfl
  | succ n ih =>
    intro h
    obtain ⟨s, hs, hl⟩ := Option.map_eq_some'.mp (ih (by omega))
    have hmod : (s.lastLabel + 1) % kNumLabels = n + 1 := by
      rw [hl]; unfold kNumLabels; omega
    have hne : ¬ ((s.lastLabel + 1) % kNumLabels = kInitializingLabel) := by
      rw [hmod]; unfold kInitializingLabel; omega
    have hstep : iterCreate (n + 1) initState =
        (dfsan_create_label "byte" s).map Prod.fst := by
      show (iterCreate n initState).bind _ = _
      rw [hs]; rfl
    rw [hstep]
    simp only [dfsan_create_label, hne, if_false, if_neg hne, Option.map_some']
    simpa using hmod

/-- C5 counterexample: the claim says a fresh table survives `2^16`
allocations; in fact the 65535-th allocation (still within the first
`2^16`) already receives the reserved `kInitializingLabel = 2^16 - 1` and
dies.  Only `2^16 - 2` allocations can ever succeed. -/
theorem create_65535th_label_dies : iterCreate 65535 initState = none := by
  obtain ⟨s, hs, hl⟩ := Option.map_eq_some'.mp (iterCreate_state 65534 (by omega))
  have hstep : iterCreate 65535 initState =
      (dfsan_create_label "byte" s).map Prod.fst := by
    show (iterCreate 65534 initState).bind _ = _
    rw [hs]; rfl
  have hmod : (s.lastLabel + 1) % kNumLabels = kInitializingLabel := by
    rw [hl]; unfold kNumLabels kInitializingLabel; omega
  rw [hstep]
  simp [dfsan_create_label, hmod]

/-- C5 (amended): allocating `2^16 - 2` labels from a fresh table succeeds,
and the `(2^16 - 1)`-th allocation aborts the process (its label would be
the reserved sentinel `2^16 - 1`); no allocation before that is fatal. -/
theorem label_capacity_boundary :
    (iterCreate 65534 initState).isSome = true ∧
    iterCreate 65535 initState = none := by
  constructor
  · obtain ⟨s, hs, -⟩ := Option.map_eq_some'.mp (iterCreate_state 65534 (by omega))
    simp [hs]
  · obtain ⟨s, hs, hl⟩ := Option.map_eq_some'.mp (iterCreate_state 65534 (by omega))
    have hstep : iterCreate 65535 initState =
        (dfsan_create_label "byte" s).map Prod.fst := by
      show (iterCreate 65534 initState).bind _ = _
      rw [hs]; rfl
    have hmod : (s.lastLabel + 1) % kNumLabels = kInitializingLabel := by
      rw [hl]; unfold kNumLabels kInitializingLabel; omega
    rw [hstep]
    simp [dfsan_create_label, hmod]

/-! ## Claim C8: reading a byte range's label -/

/-- Walking slots that all hold `L` never dies and returns `L`. -/
theorem unionLoadGo_const : ∀ (n a : Nat) (shadow : Nat → Nat) (L : Nat),
    (∀ i, i < n → shadow (a + i) = L) →
    unionLoadGo L (shadowSlots shadow a n) = some L := by
  intro n
  induction n with
  | zero => intros; rfl
  | succ n ih =>
    intro a shadow L h
    have h0 : shadow a = L := by simpa using h 0 (by omega)
    show unionLoadGo L (shadow a :: shadowSlots shadow (a + 1) n) = some L
    unfold unionLoadGo
    rw [if_neg (by simp [h0])]
    exact ih (a + 1) shadow L fun i hi => by
      have := h (i + 1) (by omega)
      rwa [show a + 1 + i = a + (i + 1) by omega]

/-- C8 counterexample: the claim says `dfsan_read_label` completes without
aborting for every combination of per-byte labels; on a 2-byte range whose
bytes carry the different labels 1 and 2, `__dfsan_union_load` calls
`Die()` instead. -/
theorem read_label_mixed_dies : dfsan_read_label shadowMix 0 2 = none := rfl

/-- C8 (amended): for a range of size `n > 0` all of whose bytes carry the
same label, `dfsan_read_label` returns that label (which is the union of
the bytes' labels) without aborting; bytes with differing labels make
`__dfsan_union_load` die instead. -/
theorem read_label_uniform (shadow : Nat → Nat) (addr size L : Nat)
    (h : ∀ i, i < size → shadow (addr + i) = L) (h0 : 0 < size) :
    dfsan_read_label shadow addr size = some L := by
  obtain ⟨k, rfl⟩ : ∃ k, size = k + 1 := ⟨size - 1, by omega⟩
  have haddr : shadow addr = L := by simpa using h 0 (by omega)
  unfold dfsan_read_label
  rw [if_neg (by omega), haddr]
  simp only [Nat.add_sub_cancel]
  exact unionLoadGo_const k (addr + 1) shadow L fun i hi => by
    have := h (i + 1) (by omega)
    rwa [show addr + 1 + i = addr + (i + 1) by omega]

/-- C8 witness: a concrete 2-byte range whose slots both hold label 5. -/
theorem read_label_uniform_witness :
    (∀ i, i < 2 → shadowFive (0 + i) = 5) ∧ 0 < 2 ∧
    dfsan_read_label shadowFive 0 2 = some 5 :=
  ⟨by decide, by decide,
   read_label_uniform shadowFive 0 2 5 (by decide) (by decide)⟩

/-! ## Claim C10: set-label frame conditions -/

/-- The shadow map after `setLabelGo`: `label` inside the window, unchanged
outside; and the write list only grows by addresses inside the window. -/
theorem setLabelGo_shadow : ∀ (size addr : Nat) (shadow : Nat → Nat)
    (ws : List Nat) (label a : Nat),
    (setLabelGo label addr size (shadow, ws)).1 a =
      if addr ≤ a ∧ a < addr + size then label else shadow a := by
  intro size
  induction size with
  | zero =>
    intro addr shadow ws label a
    simp only [setLabelGo]
    rw [if_neg (by omega)]
  | succ n ih =>
    intro addr shadow ws label a
    unfold setLabelGo
    by_cases hsk : label = shadow addr
    · rw [if_pos hsk, ih]
      by_cases h1 : addr + 1 ≤ a ∧ a < addr + 1 + n
      · rw [if_pos h1, if_pos (by omega)]
      · rw [if_neg h1]
        by_cases ha : a = addr
        · rw [if_pos (by omega), ha]
          exact hsk.symm
        · rw [if_neg (by omega)]
    · rw [if_neg hsk, ih]
      by_cases h1 : addr + 1 ≤ a ∧ a < addr + 1 + n
      · rw [if_pos h1, if_pos (by omega)]
      · rw [if_neg h1]
        by_cases ha : a = addr
        · rw [if_pos ha, if_pos (by omega)]
        · rw [if_neg ha, if_neg (by omega)]

/-- If every slot of the window already holds `label`, the walk performs no
write at all: the shadow map and the write list come back untouched. -/
theorem setLabelGo_skip : ∀ (size addr : Nat) (shadow : Nat → Nat)
    (ws : List Nat) (label : Nat),
    (∀ i, i < size → shadow (addr + i) = label) →
    setLabelGo label addr size (shadow, ws) = (shadow, ws) := by
  intro size
  induction size with
  | zero => intros; rfl
  | succ n ih =>
    intro addr shadow ws label h
    have h0 : shadow addr = label := by simpa using h 0 (by omega)
    unfold setLabelGo
    rw [if_pos h0.symm]
    exact ih (addr + 1) shadow ws label fun i hi => by
      have := h (i + 1) (by omega)
      rwa [show addr + 1 + i = addr + (i + 1) by omega]

/-- C10: after `dfsan_set_label label addr size`, every slot of the window
holds exactly `label`, every slot outside it is unchanged, and if the whole
window already held `label` nothing is written at all (the shadow map is
returned untouched and the write list is empty). -/
theorem set_label_frame (label addr size : Nat) (shadow : Nat → Nat) :
    (∀ a, addr ≤ a → a < addr + size →
      (dfsan_set_label label addr size shadow).1 a = label) ∧
    (∀ a, a < addr ∨ addr + size ≤ a →
      (dfsan_set_label label addr size shadow).1 a = shadow a) ∧
    ((∀ i, i < size → shadow (addr + i) = label) →
      dfsan_set_label label addr size shadow = (shadow, [])) := by
  refine ⟨?_, ?_, ?_⟩
  · intro a h1 h2
    rw [dfsan_set_label, setLabelGo_shadow, if_pos ⟨h1, h2⟩]
  · intro a h
    rw [dfsan_set_label, setLabelGo_shadow, if_neg (by omega)]
  · intro h
    exact setLabelGo_skip size addr shadow [] label h

/-- C10 witness: writing label 5 over slots `[1, 2]` of a mixed shadow sets
both slots, leaves slot 0 alone; rewriting label 5 over an all-5 shadow
writes nothing. -/
theorem set_label_frame_witness :
    (1 ≤ 1 ∧ 1 < 1 + 2) ∧ (0 < 1 ∨ 1 + 2 ≤ 0) ∧
    (∀ i, i < 2 → shadowFive (1 + i) = 5) ∧
    (dfsan_set_label 5 1 2 shadowMix).1 1 = 5 ∧
    (dfsan_set_label 5 1 2 shadowMix).1 0 = shadowMix 0 ∧
    dfsan_set_label 5 1 2 shadowFive = (shadowFive, []) :=
  ⟨⟨by decide, by decide⟩, Or.inl (by decide), by decide,
   (set_label_frame 5 1 2 shadowMix).1 1 (by decide) (by decide),
   (set_label_frame 5 1 2 shadowMix).2.1 0 (Or.inl (by decide)),
   (set_label_frame 5 1 2 shadowFive).2.2 (by decide)⟩

/-! ## Path lemmas for the union functions with label reuse disabled -/

/-- With `reuse_labels` off and at least one labeled input, `DFSAN_INT_UNION`
allocates a fresh label and stores exactly what the opcode switch computed. -/
theorem combineInt_noReuse (fl : Flags) (l1 l2 : Nat) (x1 x2 : Int)
    (opc : Nat) (loc : String) (s : RTState) {neg pos : FVal} {fv : Int}
    (hfl : fl.reuse_labels = false) (h12 : ¬(l1 = 0 ∧ l2 = 0))
    (hD : intDeriv fl x1 x2 (negIn s l1) (posIn s l1) (negIn s l2) (posIn s l2)
            opc = some (neg, pos, fv))
    (hcap : (s.lastLabel + 1) % kNumLabels ≠ kInitializingLabel) :
    combineInt fl l1 l2 x1 x2 opc loc s =
      some ({ lastLabel := (s.lastLabel + 1) % kNumLabels
              info := fun l => if l = (s.lastLabel + 1) % kNumLabels then
                  { l1 := l1, l2 := l2, loc := loc, neg_dydx := neg
                    pos_dydx := pos, opcode := opc, f_val := fv }
                else s.info l }, (s.lastLabel + 1) % kNumLabels) := by
  unfold combineInt
  rw [if_neg h12]
  simp only [hfl, Bool.false_eq_true, false_and, if_false]
  rw [hD]
  simp only [hfl, Bool.false_eq_true, false_and, if_false]
  rw [if_neg hcap]

/-- With `reuse_labels` off, a fatal opcode switch is fatal for the call. -/
theorem combineInt_noReuse_fatal (fl : Flags) (l1 l2 : Nat) (x1 x2 : Int)
    (opc : Nat) (loc : String) (s : RTState)
    (hfl : fl.reuse_labels = false) (h12 : ¬(l1 = 0 ∧ l2 = 0))
    (hD : intDeriv fl x1 x2 (negIn s l1) (posIn s l1) (negIn s l2) (posIn s l2)
            opc = none) :
    combineInt fl l1 l2 x1 x2 opc loc s = none := by
  unfold combineInt
  rw [if_neg h12]
  simp only [hfl, Bool.false_eq_true, false_and, if_false]
  rw [hD]

/-- With `reuse_labels` off and at least one labeled input, `DFSAN_FLOAT_UNION`
allocates a fresh label with the computed derivatives (its `f_val` field is
not assigned). -/
theorem combineFloat_noReuse (fl : Flags) (l1 l2 : Nat) (q1 q2 : Frac)
    (opc : Nat) (loc : String) (s : RTState)
    (hfl : fl.reuse_labels = false) (h12 : ¬(l1 = 0 ∧ l2 = 0))
    (hcap : (s.lastLabel + 1) % kNumLabels ≠ kInitializingLabel) :
    combineFloat fl l1 l2 q1 q2 opc loc s =
      some ({ lastLabel := (s.lastLabel + 1) % kNumLabels
              info := fun l => if l = (s.lastLabel + 1) % kNumLabels then
                  { s.info ((s.lastLabel + 1) % kNumLabels) with
                    l1 := l1
                    l2 := l2
                    loc := loc
                    neg_dydx := (floatDeriv fl q1 q2 (negIn s l1) (posIn s l1)
                                  (negIn s l2) (posIn s l2) opc).1
                    pos_dydx := (floatDeriv fl q1 q2 (negIn s l1) (posIn s l1)
                                  (negIn s l2) (posIn s l2) opc).2
                    opcode := opc }
                else s.info l }, (s.lastLabel + 1) % kNumLabels) := by
  unfold combineFloat
  rw [if_neg h12]
  simp only [hfl, Bool.false_eq_true, false_and, if_false]
  rw [if_neg hcap]

/-! ## Claim C2: Add/Sub linear rule -/

/-- C2 counterexample: with label reuse enabled (the spec's §4.2 "label
reuse" shortcut), combining a label whose derivatives are zero returns that
input label without updating its recorded concrete value: `stateZ`'s label 2
(derivatives `(0,0)`, `f_val = -1`) combined under `ADD` with operands
`5 + 5` yields label 2 with recorded value `-1`, not `10`. -/
theorem add_reuse_keeps_stale_value :
    (combineInt reuseFlagsZ 2 0 5 5 ADD "" stateZ).map
        (fun p => (p.2, (p.1.info p.2).f_val)) = some (2, -1) ∧
    wrap32 (add64 5 5) = 10 ∧ (-1 : Int) ≠ 10 := by
  refine ⟨by decide, by decide, by decide⟩

/-- C2 (amended): when the reuse fast paths are not taken (label reuse
disabled) and at least one input label is nonzero, an `ADD` (resp. `SUB`)
union allocates a fresh label whose `neg`/`pos` derivatives are the sums
(differences) of the inputs' derivatives — a zero label contributing
derivative 0 — and whose recorded concrete value is `x1 + x2` (`x1 - x2`)
as the 32-bit `f_val` field stores it; with reuse enabled the returned
label's recorded concrete value can be stale. -/
theorem combine_add_sub_linear (fl : Flags) (l1 l2 : Nat) (x1 x2 : Int)
    (loc : String) (s : RTState)
    (hfl : fl.reuse_labels = false) (h12 : ¬(l1 = 0 ∧ l2 = 0))
    (hcap : (s.lastLabel + 1) % kNumLabels ≠ kInitializingLabel) :
    (combineInt fl l1 l2 x1 x2 ADD loc s).map
        (fun p => (p.2, (p.1.info p.2).neg_dydx, (p.1.info p.2).pos_dydx,
                   (p.1.info p.2).f_val)) =
      some ((s.lastLabel + 1) % kNumLabels,
            FVal.add (negIn s l1) (negIn s l2),
            FVal.add (posIn s l1) (posIn s l2),
            wrap32 (add64 x1 x2)) ∧
    (combineInt fl l1 l2 x1 x2 SUB loc s).map
        (fun p => (p.2, (p.1.info p.2).neg_dydx, (p.1.info p.2).pos_dydx,
                   (p.1.info p.2).f_val)) =
      some ((s.lastLabel + 1) % kNumLabels,
            FVal.sub (negIn s l1) (negIn s l2),
            FVal.sub (posIn s l1) (posIn s l2),
            wrap32 (sub64 x1 x2)) := by
  constructor
  · rw [combineInt_noReuse fl l1 l2 x1 x2 ADD loc s hfl h12 rfl hcap]
    simp
  · rw [combineInt_noReuse fl l1 l2 x1 x2 SUB loc s hfl h12 rfl hcap]
    simp

/-- C2 witness: the spec's additive-linearity fixture.  Label A has
derivatives `(1,1)`, label B has `(2,2)`; `combine(A, B, ADD, 1, 2)`
allocates label 3 with derivatives `(3,3)` and concrete value 3. -/
theorem combine_add_sub_linear_witness :
    noReuseFlags.reuse_labels = false ∧ ¬((1 : Nat) = 0 ∧ (2 : Nat) = 0) ∧
    (stateAB.lastLabel + 1) % kNumLabels ≠ kInitializingLabel ∧
    ((combineInt noReuseFlags 1 2 1 2 ADD "w" stateAB).map
        (fun p => (p.2, (p.1.info p.2).neg_dydx, (p.1.info p.2).pos_dydx,
                   (p.1.info p.2).f_val)) =
      some ((stateAB.lastLabel + 1) % kNumLabels,
            FVal.add (negIn stateAB 1) (negIn stateAB 2),
            FVal.add (posIn stateAB 1) (posIn stateAB 2),
            wrap32 (add64 1 2))) ∧
    (stateAB.lastLabel + 1) % kNumLabels = 3 ∧
    FVal.add (negIn stateAB 1) (negIn stateAB 2) = .val ⟨3, 1⟩ ∧
    wrap32 (add64 1 2) = 3 :=
  ⟨rfl, by decide, by decide,
   (combine_add_sub_linear noReuseFlags 1 2 1 2 "w" stateAB rfl (by decide)
      (by decide)).1,
   by decide, by decide, by decide⟩

/-! ## Claim C3: multiplication product rule -/

/-- C3 counterexample: with label reuse enabled, multiplying through a label
with zero derivatives returns the input label with its stale recorded value:
`stateZ`'s label 2 (`f_val = -1`) combined under `MUL` with operands `3 * 5`
yields label 2 with recorded value `-1`, not `15`. -/
theorem mul_reuse_keeps_stale_value :
    (combineInt reuseFlagsZ 2 0 3 5 MUL "" stateZ).map
        (fun p => (p.2, (p.1.info p.2).f_val)) = some (2, -1) ∧
    wrap32 (mul64 3 5) = 15 ∧ (-1 : Int) ≠ 15 := by
  refine ⟨by decide, by decide, by decide⟩

/-- C3 (amended): when the reuse fast paths are not taken (label reuse
disabled) and at least one input label is nonzero, a `MUL` union allocates
a fresh label whose derivatives follow the product rule
`d(x1*x2) = x1*dx2 + x2*dx1` evaluated separately on the neg and pos
branches, and whose recorded concrete value is `x1 * x2` as the 32-bit
`f_val` field stores it; with reuse enabled the returned label's recorded
concrete value can be stale. -/
theorem combine_mul_product_rule (fl : Flags) (l1 l2 : Nat) (x1 x2 : Int)
    (loc : String) (s : RTState)
    (hfl : fl.reuse_labels = false) (h12 : ¬(l1 = 0 ∧ l2 = 0))
    (hcap : (s.lastLabel + 1) % kNumLabels ≠ kInitializingLabel) :
    (combineInt fl l1 l2 x1 x2 MUL loc s).map
        (fun p => (p.2, (p.1.info p.2).neg_dydx, (p.1.info p.2).pos_dydx,
                   (p.1.info p.2).f_val)) =
      some ((s.lastLabel + 1) % kNumLabels,
            FVal.add (FVal.mul (.val (Frac.ofInt x1)) (negIn s l2))
                     (FVal.mul (.val (Frac.ofInt x2)) (negIn s l1)),
            FVal.add (FVal.mul (.val (Frac.ofInt x1)) (posIn s l2))
                     (FVal.mul (.val (Frac.ofInt x2)) (posIn s l1)),
            wrap32 (mul64 x1 x2)) := by
  rw [combineInt_noReuse fl l1 l2 x1 x2 MUL loc s hfl h12 rfl hcap]
  simp

/-- C3 witness: the spec's product-rule fixture.  Label X is bound to
concrete value 1 with derivatives `(1,1)`; `combine(X, 0, MUL, 1, 4)`
allocates label 2 with derivatives `(4,4)` and concrete value 4. -/
theorem combine_mul_product_rule_witness :
    noReuseFlags.reuse_labels = false ∧ ¬((1 : Nat) = 0 ∧ (0 : Nat) = 0) ∧
    (stateA.lastLabel + 1) % kNumLabels ≠ kInitializingLabel ∧
    ((combineInt noReuseFlags 1 0 1 4 MUL "w" stateA).map
        (fun p => (p.2, (p.1.info p.2).neg_dydx, (p.1.info p.2).pos_dydx,
                   (p.1.info p.2).f_val)) =
      some ((stateA.lastLabel + 1) % kNumLabels,
            FVal.add (FVal.mul (.val (Frac.ofInt 1)) (negIn stateA 0))
                     (FVal.mul (.val (Frac.ofInt 4)) (negIn stateA 1)),
            FVal.add (FVal.mul (.val (Frac.ofInt 1)) (posIn stateA 0))
                     (FVal.mul (.val (Frac.ofInt 4)) (posIn stateA 1)),
            wrap32 (mul64 1 4))) ∧
    (stateA.lastLabel + 1) % kNumLabels = 2 ∧
    FVal.add (FVal.mul (.val (Frac.ofInt 1)) (negIn stateA 0))
             (FVal.mul (.val (Frac.ofInt 4)) (negIn stateA 1)) = .val ⟨4, 1⟩ ∧
    wrap32 (mul64 1 4) = 4 :=
  ⟨rfl, by decide, by decide,
   combine_mul_product_rule noReuseFlags 1 0 1 4 "w" stateA rfl (by decide)
     (by decide),
   by decide, by decide, by decide⟩

/-! ## Claim C4: division by zero -/

/-- C4 counterexample: the claim says a signed integer division by zero is
not fatal; in fact the `SDIV` arm of `DFSAN_INT_UNION` sets the NaN
derivatives and then executes `assert(false)`, so with assertions enabled
(the build configures LLVM with assertions on) the call aborts: a concrete
tainted `5 / 0` under `SDIV` dies. -/
theorem sdiv_by_zero_is_fatal :
    combineInt noReuseFlags 1 0 5 0 SDIV "" stateA = none := rfl

/-- C4 (amended): with at least one labeled input and the reuse shortcut
not taken, an integer `SDiv` whose second operand is 0 reaches
`assert(false)` and is fatal (the NaN derivatives it just computed are never
returned); a float `FDiv` by zero is not fatal: it completes normally and
allocates a label whose neg/pos derivatives are both NaN, which then
propagates. -/
theorem div_by_zero_sdiv_fatal_fdiv_nan (fl : Flags) (l1 l2 : Nat)
    (x1 : Int) (q1 : Frac) (loc : String) (s : RTState)
    (hfl : fl.reuse_labels = false) (h12 : ¬(l1 = 0 ∧ l2 = 0))
    (hcap : (s.lastLabel + 1) % kNumLabels ≠ kInitializingLabel) :
    combineInt fl l1 l2 x1 0 SDIV loc s = none ∧
    (combineFloat fl l1 l2 q1 ⟨0, 1⟩ FDIV loc s).map
        (fun p => (p.2, (p.1.info p.2).neg_dydx, (p.1.info p.2).pos_dydx)) =
      some ((s.lastLabel + 1) % kNumLabels, FVal.nan, FVal.nan) := by
  constructor
  · exact combineInt_noReuse_fatal fl l1 l2 x1 0 SDIV loc s hfl h12 rfl
  · rw [combineFloat_noReuse fl l1 l2 q1 ⟨0, 1⟩ FDIV loc s hfl h12 hcap]
    simp
    rfl

/-- C4 witness: a tainted `5 / 0` under `SDIV` aborts, while a tainted
`5.0 / 0.0` under `FDIV` allocates label 2 with NaN derivatives. -/
theorem div_by_zero_witness :
    noReuseFlags.reuse_labels = false ∧ ¬((1 : Nat) = 0 ∧ (0 : Nat) = 0) ∧
    (stateA.lastLabel + 1) % kNumLabels ≠ kInitializingLabel ∧
    (combineInt noReuseFlags 1 0 5 0 SDIV "w" stateA = none ∧
     (combineFloat noReuseFlags 1 0 ⟨5, 1⟩ ⟨0, 1⟩ FDIV "w" stateA).map
        (fun p => (p.2, (p.1.info p.2).neg_dydx, (p.1.info p.2).pos_dydx)) =
      some ((stateA.lastLabel + 1) % kNumLabels, FVal.nan, FVal.nan)) :=
  ⟨rfl, by decide, by decide,
   div_by_zero_sdiv_fatal_fdiv_nan noReuseFlags 1 0 5 ⟨5, 1⟩ "w" stateA rfl
     (by decide) (by decide)⟩

/-! ## Claim C6: the provenance DAG invariant -/

/-- Any successful `DFSAN_INT_UNION` call either leaves the table untouched
(fast path or label reuse) or allocates the next label and writes exactly
one fresh entry whose parents are the two input labels. -/
theorem combineInt_state {fl : Flags} {l1 l2 : Nat} {x1 x2 : Int}
    {opc : Nat} {loc : String} {s s' : RTState} {lab : Nat}
    (h : combineInt fl l1 l2 x1 x2 opc loc s = some (s', lab)) :
    s' = s ∨
    ((s.lastLabel + 1) % kNumLabels ≠ kInitializingLabel ∧
     lab = (s.lastLabel + 1) % kNumLabels ∧
     ∃ neg pos fv, s' =
       { lastLabel := lab
         info := fun l => if l = lab then
             { l1 := l1, l2 := l2, loc := loc, neg_dydx := neg
               pos_dydx := pos, opcode := opc, f_val := fv }
           else s.info l }) := by
  simp only [combineInt] at h
  split at h
  · left; exact (congrArg Prod.fst (Option.some.inj h)).symm
  · split at h
    · left; exact (congrArg Prod.fst (Option.some.inj h)).symm
    · split at h
      · exact Option.noConfusion h
      · split at h
        · left; exact (congrArg Prod.fst (Option.some.inj h)).symm
        · split at h
          · left; exact (congrArg Prod.fst (Option.some.inj h)).symm
          · split at h
            · exact Option.noConfusion h
            · next hcap =>
              right
              rename_i hx12 hxre hxm neg pos fv heq hre1 hre2
              have hp := Option.some.inj h
              injection hp with h1 h2
              refine ⟨hcap, h2.symm, neg, pos, fv, ?_⟩
              rw [← h1, ← h2]

/-- Same statement for `DFSAN_FLOAT_UNION` (its fresh entry keeps the old
`f_val` contents but likewise records the two input labels as parents). -/
theorem combineFloat_state {fl : Flags} {l1 l2 : Nat} {q1 q2 : Frac}
    {opc : Nat} {loc : String} {s s' : RTState} {lab : Nat}
    (h : combineFloat fl l1 l2 q1 q2 opc loc s = some (s', lab)) :
    s' = s ∨
    ((s.lastLabel + 1) % kNumLabels ≠ kInitializingLabel ∧
     lab = (s.lastLabel + 1) % kNumLabels ∧
     ∃ neg pos, s' =
       { lastLabel := lab
         info := fun l => if l = lab then
             { s.info lab with
               l1 := l1
               l2 := l2
               loc := loc
               neg_dydx := neg
               pos_dydx := pos
               opcode := opc }
           else s.info l }) := by
  simp only [combineFloat] at h
  split at h
  · left; exact (congrArg Prod.fst (Option.some.inj h)).symm
  · split at h
    · left; exact (congrArg Prod.fst (Option.some.inj h)).symm
    · split at h
      · left; exact (congrArg Prod.fst (Option.some.inj h)).symm
      · split at h
        · left; exact (congrArg Prod.fst (Option.some.inj h)).symm
        · split at h
          · exact Option.noConfusion h
          · next hcap =>
            right
            have hp := Option.some.inj h
            injection hp with h1 h2
            refine ⟨hcap, h2.symm,
              (floatDeriv fl q1 q2 (negIn s l1) (posIn s l1) (negIn s l2)
                (posIn s l2) opc).1,
              (floatDeriv fl q1 q2 (negIn s l1) (posIn s l1) (negIn s l2)
                (posIn s l2) opc).2, ?_⟩
            rw [← h1, ← h2]

/-- The table invariant: the counter never reaches the sentinel, and every
allocated label's parents are strictly smaller than the label itself. -/
def TableInv (s : RTState) : Prop :=
  s.lastLabel ≤ 65534 ∧
  ∀ l, 1 ≤ l → l ≤ s.lastLabel → (s.info l).l1 < l ∧ (s.info l).l2 < l

/-- `dfsan_create_label` characterised like the unions. -/
theorem create_state {desc : String} {s s' : RTState} {lab : Nat}
    (h : dfsan_create_label desc s = some (s', lab)) :
    (s.lastLabel + 1) % kNumLabels ≠ kInitializingLabel ∧
    lab = (s.lastLabel + 1) % kNumLabels ∧
    s' = { lastLabel := lab
           info := fun l => if l = lab then
               { s.info lab with
                 l1 := 0
                 l2 := 0
                 loc := desc
                 neg_dydx := FVal.one
                 pos_dydx := FVal.one }
             else s.info l } := by
  simp only [dfsan_create_label] at h
  split at h
  · exact Option.noConfusion h
  · next hcap =>
    have hp := Option.some.inj h
    injection hp with h1 h2
    exact ⟨hcap, h2.symm, by rw [← h1, ← h2]⟩

/-- A freshly written allocation entry preserves the invariant provided its
parents are at most the old counter. -/
theorem tableInv_extend {s : RTState} (hinv : TableInv s) {lab p1 p2 : Nat}
    (hcap : (s.lastLabel + 1) % kNumLabels ≠ kInitializingLabel)
    (hlab : lab = (s.lastLabel + 1) % kNumLabels)
    (hp1 : p1 ≤ s.lastLabel) (hp2 : p2 ≤ s.lastLabel)
    (t : RTState) (hL : t.lastLabel = lab)
    (hI : ∀ m, t.info m = if m = lab then
        { (t.info m) with l1 := p1, l2 := p2 } else s.info m) :
    TableInv t := by
  obtain ⟨hle, hinv⟩ := hinv
  have hmod : (s.lastLabel + 1) % kNumLabels = s.lastLabel + 1 :=
    Nat.mod_eq_of_lt (by unfold kNumLabels; omega)
  rw [hmod] at hlab hcap
  have hbound : s.lastLabel + 1 ≤ 65534 := by
    unfold kInitializingLabel at hcap; omega
  constructor
  · omega
  · intro m h1 h2
    rw [hL, hlab] at h2
    by_cases hm : m = lab
    · rw [hI m, if_pos hm]
      subst hm
      simp only []
      omega
    · rw [hI m, if_neg hm]
      exact hinv m h1 (by omega)

/-- Every reachable state satisfies the table invariant. -/
theorem reachable_tableInv {s : RTState} (hs : Reachable s) : TableInv s := by
  induction hs with
  | init =>
    exact ⟨Nat.zero_le _, fun l h1 h2 => absurd (h1.trans h2) (by decide)⟩
  | @create s s' desc l hr hc ih =>
    obtain ⟨hcap, hlab, hstate⟩ := create_state hc
    refine tableInv_extend ih hcap hlab (Nat.zero_le _) (Nat.zero_le _) s' ?_ ?_
    · rw [hstate]
    · intro m
      rw [hstate]
      by_cases hm : m = l
      · simp [hm]
      · simp [hm]
  | @unionInt s s' fl l1 l2 x1 x2 opc loc l hr hl1 hl2 hc ih =>
    rcases combineInt_state hc with rfl | ⟨hcap, hlab, neg, pos, fv, hstate⟩
    · exact ih
    · refine tableInv_extend ih hcap hlab hl1 hl2 s' ?_ ?_
      · rw [hstate]
      · intro m
        rw [hstate]
        by_cases hm : m = l
        · simp [hm]
        · simp [hm]
  | @unionFloat s s' fl l1 l2 q1 q2 opc loc l hr hl1 hl2 hc ih =>
    rcases combineFloat_state hc with rfl | ⟨hcap, hlab, neg, pos, hstate⟩
    · exact ih
    · refine tableInv_extend ih hcap hlab hl1 hl2 s' ?_ ?_
      · rw [hstate]
      · intro m
        rw [hstate]
        by_cases hm : m = l
        · simp [hm]
        · simp [hm]
  | reset hr ih =>
    exact ⟨Nat.zero_le _, fun l h1 h2 => absurd (h1.trans h2) (by decide)⟩

/-- C6: in every state reachable by any sequence of create, combine and
reset operations (combine being called, as the instrumentation does, with
labels the runtime has handed out), every allocated label `l > 0` has
`parent1(l) < l` and `parent2(l) < l`, so the parent relation is an acyclic
DAG. -/
theorem provenance_dag_invariant {s : RTState} (hs : Reachable s) :
    ∀ l, 1 ≤ l → l ≤ s.lastLabel →
      (s.info l).l1 < l ∧ (s.info l).l2 < l :=
  fun l h1 h2 => (reachable_tableInv hs).2 l h1 h2

/-- Intermediate states of the C6 witness run: create two source labels,
then combine them under `ADD`. -/
def wState1 : RTState :=
  ((dfsan_create_label "a" initState).map Prod.fst).getD initState

def wState2 : RTState :=
  ((dfsan_create_label "b" wState1).map Prod.fst).getD initState

def wState3 : RTState :=
  ((combineInt noReuseFlags 1 2 5 7 ADD "w" wState2).map Prod.fst).getD initState

theorem wState3_reachable : Reachable wState3 := by
  have h1 : Reachable wState1 :=
    @Reachable.create initState wState1 "a" 1 Reachable.init rfl
  have h2 : Reachable wState2 :=
    @Reachable.create wState1 wState2 "b" 2 h1 rfl
  exact @Reachable.unionInt wState2 wState3 noReuseFlags 1 2 5 7 ADD "w" 3 h2
    (by decide) (by decide) rfl

/-- C6 witness: after creating labels 1 and 2 and combining them, label 3
is allocated with parents 1 and 2, both strictly smaller than 3. -/
theorem provenance_dag_invariant_witness :
    Reachable wState3 ∧ (1 ≤ 3 ∧ 3 ≤ wState3.lastLabel) ∧
    ((wState3.info 3).l1 < 3 ∧ (wState3.info 3).l2 < 3) :=
  ⟨wState3_reachable, ⟨by decide, by decide⟩,
   provenance_dag_invariant wState3_reachable 3 (by decide) (by decide)⟩

/-! ## Claim C9: `dfsan_has_label` -/

/-- With enough fuel and parent-decreasing entries along the way,
`hasLabelFuel` decides exactly the guarded reachability relation. -/
theorem hasLabelFuel_iff (info : Nat → LabelInfo) : ∀ (fuel l e : Nat),
    l < fuel →
    (∀ m, m ≤ l → (info m).l1 ≠ 0 → (info m).l1 < m ∧ (info m).l2 < m) →
    (hasLabelFuel info fuel l e = true ↔ GReach info l e) := by
  intro fuel
  induction fuel with
  | zero => intro l e h _; omega
  | succ fuel ih =>
    intro l e hlf H
    by_cases hle : l = e
    · subst hle
      simp [hasLabelFuel]
      exact GReach.refl l
    · by_cases hg : (info l).l1 ≠ 0
      · have hpar := H l (le_refl l) hg
        have ih1 := ih (info l).l1 e (by omega) (fun m hm => H m (by omega))
        have ih2 := ih (info l).l2 e (by omega) (fun m hm => H m (by omega))
        simp only [hasLabelFuel, if_neg hle, if_pos hg, Bool.or_eq_true,
          ih1, ih2]
        constructor
        · rintro (h | h)
          · exact GReach.parent1 hg h
          · exact GReach.parent2 hg h
        · intro h
          cases h with
          | refl => exact absurd rfl hle
          | parent1 hg' hr => exact Or.inl hr
          | parent2 hg' hr => exact Or.inr hr
      · simp only [hasLabelFuel, if_neg hle, if_neg hg, Bool.false_eq_true,
          false_iff]
        intro h
        cases h with
        | refl => exact absurd rfl hle
        | parent1 hg' _ => exact absurd hg' hg
        | parent2 hg' _ => exact absurd hg' hg

/-- C9 counterexample: in the reachable state `stateP`, label 2 was created
by `combine(l1 = 0, l2 = 1, ADD)`, so label 1 lies in its provenance DAG via
the `parent2` link; but `dfsan_has_label` only descends when `parent1` is
nonzero, so it answers `false`, refuting the claimed equivalence. -/
theorem has_label_misses_parent2 :
    ProvReach stateP.info 2 1 ∧ dfsan_has_label stateP 2 1 = false ∧
    ¬ (dfsan_has_label stateP 2 1 = true ↔
        (1 = 2 ∨ ProvReach stateP.info 2 1)) := by
  have hp : ProvReach stateP.info 2 1 :=
    ProvReach.parent2 (by decide) (ProvReach.refl 1)
  refine ⟨hp, by decide, fun hiff => ?_⟩
  exact absurd (hiff.mpr (Or.inr hp)) (by decide)

/-- C9 (amended): on a table whose (visited) entries satisfy the
parent-decreasing invariant, `dfsan_has_label label elem` returns true if
and only if `elem` is reachable from `label` in the guarded sense: `elem`
equals `label`, or `label`'s `parent1` is nonzero and the test succeeds
recursively on `parent1` or on `parent2`.  An ancestor whose only path
passes through the `parent2` link of a node with `parent1 = 0` is missed. -/
theorem has_label_guarded (s : RTState) (label elem : Nat)
    (H : ∀ m, m < label + 1 → (s.info m).l1 ≠ 0 →
      (s.info m).l1 < m ∧ (s.info m).l2 < m) :
    dfsan_has_label s label elem = true ↔ GReach s.info label elem :=
  hasLabelFuel_iff s.info (label + 1) label elem (by omega)
    (fun m hm => H m (by omega))

/-- C9 witness: in `wState3` label 3 has parents 1 and 2;
`dfsan_has_label 3 1` answers true, and the guarded-reachability reading is
exact there. -/
theorem has_label_guarded_witness :
    (∀ m, m < 3 + 1 → (wState3.info m).l1 ≠ 0 →
      (wState3.info m).l1 < m ∧ (wState3.info m).l2 < m) ∧
    dfsan_has_label wState3 3 1 = true ∧
    (dfsan_has_label wState3 3 1 = true ↔ GReach wState3.info 3 1) :=
  ⟨by decide, by decide, has_label_guarded wState3 3 1 (by decide)⟩

/-! ## Claim C7: finite-difference offset schedules -/

/-- The `SHL` loop is the spec sampler with the linear schedule. -/
theorem shlGo_spec (x1 x2 y : Int) (nd1 pd1 nd2 pd2 : FVal) :
    ∀ (rem smp : Nat) (st : FVal × FVal),
    shlGo x1 x2 y nd1 pd1 nd2 pd2 smp rem st =
      specSample linOff (shlDeltas x1 x2 y nd1 pd1 nd2 pd2).1
        (shlDeltas x1 x2 y nd1 pd1 nd2 pd2).2 smp rem st := by
  intro rem
  induction rem with
  | zero => intro smp st; rfl
  | succ n ih =>
    intro smp st
    obtain ⟨nd, pd⟩ := st
    simp only [shlGo, specSample, shlDeltas, linOff]
    exact ih (smp + 1) _

/-- The `OR` loop is the spec sampler with the linear schedule. -/
theorem orGo_spec (x1 x2 y : Int) (nd1 pd1 nd2 pd2 : FVal) :
    ∀ (rem smp : Nat) (st : FVal × FVal),
    orGo x1 x2 y nd1 pd1 nd2 pd2 smp rem st =
      specSample linOff (orDeltas x1 x2 y nd1 pd1 nd2 pd2).1
        (orDeltas x1 x2 y nd1 pd1 nd2 pd2).2 smp rem st := by
  intro rem
  induction rem with
  | zero => intro smp st; rfl
  | succ n ih =>
    intro smp st
    obtain ⟨nd, pd⟩ := st
    simp only [orGo, specSample, orDeltas, linOff]
    exact ih (smp + 1) _

/-- The `XOR` loop is the spec sampler with the linear schedule. -/
theorem xorGo_spec (x1 x2 y : Int) (nd1 pd1 nd2 pd2 : FVal) :
    ∀ (rem smp : Nat) (st : FVal × FVal),
    xorGo x1 x2 y nd1 pd1 nd2 pd2 smp rem st =
      specSample linOff (xorDeltas x1 x2 y nd1 pd1 nd2 pd2).1
        (xorDeltas x1 x2 y nd1 pd1 nd2 pd2).2 smp rem st := by
  intro rem
  induction rem with
  | zero => intro smp st; rfl
  | succ n ih =>
    intro smp st
    obtain ⟨nd, pd⟩ := st
    simp only [xorGo, specSample, xorDeltas, linOff]
    exact ih (smp + 1) _

/-- The `SREM` loop is the (abortable) spec sampler with the linear
schedule. -/
theorem sremGo_spec (x1 x2 y : Int) (nd1 pd1 nd2 pd2 : FVal) :
    ∀ (rem smp : Nat) (st : FVal × FVal),
    sremGo x1 x2 y nd1 pd1 nd2 pd2 smp rem st =
      specSampleD linOff (sremDeltas x1 x2 y nd1 pd1 nd2 pd2).1
        (sremDeltas x1 x2 y nd1 pd1 nd2 pd2).2 smp rem st := by
  intro rem
  induction rem with
  | zero => intro smp st; rfl
  | succ n ih =>
    intro smp st
    obtain ⟨nd, pd⟩ := st
    simp only [sremGo, specSampleD, sremDeltas, linOff]
    by_cases hd : sub64 x2 (FVal.scale smp nd2).toInt = 0
    · simp [hd]
    · simp only [if_neg hd]
      by_cases hp : add64 x2 (FVal.scale smp pd2).toInt = 0
      · simp [hp]
      · simp only [if_neg hp]
        exact ih (smp + 1) _

/-- The `UREM` loop is the (abortable) spec sampler with the linear
schedule. -/
theorem uremGo_spec (ux1 ux2 y : Nat) (nd1 pd1 nd2 pd2 : FVal) :
    ∀ (rem smp : Nat) (st : FVal × FVal),
    uremGo ux1 ux2 y nd1 pd1 nd2 pd2 smp rem st =
      specSampleD linOff (uremDeltas ux1 ux2 y nd1 pd1 nd2 pd2).1
        (uremDeltas ux1 ux2 y nd1 pd1 nd2 pd2).2 smp rem st := by
  intro rem
  induction rem with
  | zero => intro smp st; rfl
  | succ n ih =>
    intro smp st
    obtain ⟨nd, pd⟩ := st
    simp only [uremGo, specSampleD, uremDeltas, linOff]
    by_cases hd : u64sub ux2 (toU64F (FVal.scale smp nd2)) = 0
    · simp [hd]
    · simp only [if_neg hd]
      by_cases hp : u64add ux2 (toU64F (FVal.scale smp pd2)) = 0
      · simp [hp]
      · simp only [if_neg hp]
        exact ih (smp + 1) _

/-- The `LSHR` loop is the spec sampler with the geometric schedule (for
sample budgets up to 32, before the 32-bit `offset` counter wraps). -/
theorem lshrGo_spec (x1 x2 : Int) (y : Nat) (nd1 pd1 nd2 pd2 : FVal) :
    ∀ (rem smp offset : Nat) (st : FVal × FVal),
    offset = 2 ^ (smp - 1) → 1 ≤ smp → smp + rem ≤ 33 →
    lshrGo x1 x2 y nd1 pd1 nd2 pd2 smp rem offset st =
      specSample geomOff (lshrDeltas x1 x2 y nd1 pd1 nd2 pd2).1
        (lshrDeltas x1 x2 y nd1 pd1 nd2 pd2).2 smp rem st := by
  intro rem
  induction rem with
  | zero => intro smp offset st _ _ _; rfl
  | succ n ih =>
    intro smp offset st hoff h1 hle
    obtain ⟨nd, pd⟩ := st
    subst hoff
    simp only [lshrGo, specSample, lshrDeltas, geomOff]
    rcases Nat.eq_zero_or_pos n with hn | hn
    · subst hn; rfl
    · have hsm : smp < 32 := by omega
      have hoz : 2 ^ (smp - 1) * 2 % 2 ^ 32 = 2 ^ (smp + 1 - 1) := by
        have h2 : 2 ^ (smp - 1) * 2 = 2 ^ smp := by
          rw [← pow_succ]
          congr 1
          omega
        rw [h2, Nat.mod_eq_of_lt (Nat.pow_lt_pow_right Nat.one_lt_two hsm)]
        congr 1
      rw [hoz]
      exact ih (smp + 1) _ _ rfl (by omega) (by omega)

/-- The `ASHR` loop is the spec sampler with the geometric schedule. -/
theorem ashrGo_spec (x1 x2 y : Int) (nd1 pd1 nd2 pd2 : FVal) :
    ∀ (rem smp offset : Nat) (st : FVal × FVal),
    offset = 2 ^ (smp - 1) → 1 ≤ smp → smp + rem ≤ 33 →
    ashrGo x1 x2 y nd1 pd1 nd2 pd2 smp rem offset st =
      specSample geomOff (ashrDeltas x1 x2 y nd1 pd1 nd2 pd2).1
        (ashrDeltas x1 x2 y nd1 pd1 nd2 pd2).2 smp rem st := by
  intro rem
  induction rem with
  | zero => intro smp offset st _ _ _; rfl
  | succ n ih =>
    intro smp offset st hoff h1 hle
    obtain ⟨nd, pd⟩ := st
    subst hoff
    simp only [ashrGo, specSample, ashrDeltas, geomOff]
    rcases Nat.eq_zero_or_pos n with hn | hn
    · subst hn; rfl
    · have hsm : smp < 32 := by omega
      have hoz : 2 ^ (smp - 1) * 2 % 2 ^ 32 = 2 ^ (smp + 1 - 1) := by
        have h2 : 2 ^ (smp - 1) * 2 = 2 ^ smp := by
          rw [← pow_succ]
          congr 1
          omega
        rw [h2, Nat.mod_eq_of_lt (Nat.pow_lt_pow_right Nat.one_lt_two hsm)]
        congr 1
      rw [hoz]
      exact ih (smp + 1) _ _ rfl (by omega) (by omega)

/-- The `AND` loop is the spec sampler with the geometric schedule. -/
theorem andGo_spec (x1 x2 y : Int) (nd1 pd1 nd2 pd2 : FVal) :
    ∀ (rem smp offset : Nat) (st : FVal × FVal),
    offset = 2 ^ (smp - 1) → 1 ≤ smp → smp + rem ≤ 33 →
    andGo x1 x2 y nd1 pd1 nd2 pd2 smp rem offset st =
      specSample geomOff (andDeltas x1 x2 y nd1 pd1 nd2 pd2).1
        (andDeltas x1 x2 y nd1 pd1 nd2 pd2).2 smp rem st := by
  intro rem
  induction rem with
  | zero => intro smp offset st _ _ _; rfl
  | succ n ih =>
    intro smp offset st hoff h1 hle
    obtain ⟨nd, pd⟩ := st
    subst hoff
    simp only [andGo, specSample, andDeltas, geomOff]
    rcases Nat.eq_zero_or_pos n with hn | hn
    · subst hn; rfl
    · have hsm : smp < 32 := by omega
      have hoz : 2 ^ (smp - 1) * 2 % 2 ^ 32 = 2 ^ (smp + 1 - 1) := by
        have h2 : 2 ^ (smp - 1) * 2 = 2 ^ smp := by
          rw [← pow_succ]
          congr 1
          omega
        rw [h2, Nat.mod_eq_of_lt (Nat.pow_lt_pow_right Nat.one_lt_two hsm)]
        congr 1
      rw [hoz]
      exact ih (smp + 1) _ _ rfl (by omega) (by omega)

/-- The corrected offset-schedule description of all eight sampled arms of
`DFSAN_INT_UNION`: `SHL`, `OR`, `XOR` and the remainders `SREM`, `UREM` use
the linear schedule (offset `k` at sample `k`), while `LSHR`, `ASHR`, `AND`
use the geometric schedule (offset `2^(k-1)` at sample `k`); in every case a
one-sided derivative keeps the first sampled output delta divided by the
offset whose magnitude is no longer near zero. -/
def schedulesMatch (x1 x2 : Int) (ux1 ux2 yN : Nat) (yI : Int)
    (nd1 pd1 nd2 pd2 : FVal) (n : Nat) (st : FVal × FVal) : Prop :=
  (shlGo x1 x2 yI nd1 pd1 nd2 pd2 1 n st =
    specSample linOff (shlDeltas x1 x2 yI nd1 pd1 nd2 pd2).1
      (shlDeltas x1 x2 yI nd1 pd1 nd2 pd2).2 1 n st) ∧
  (orGo x1 x2 yI nd1 pd1 nd2 pd2 1 n st =
    specSample linOff (orDeltas x1 x2 yI nd1 pd1 nd2 pd2).1
      (orDeltas x1 x2 yI nd1 pd1 nd2 pd2).2 1 n st) ∧
  (xorGo x1 x2 yI nd1 pd1 nd2 pd2 1 n st =
    specSample linOff (xorDeltas x1 x2 yI nd1 pd1 nd2 pd2).1
      (xorDeltas x1 x2 yI nd1 pd1 nd2 pd2).2 1 n st) ∧
  (sremGo x1 x2 yI nd1 pd1 nd2 pd2 1 n st =
    specSampleD linOff (sremDeltas x1 x2 yI nd1 pd1 nd2 pd2).1
      (sremDeltas x1 x2 yI nd1 pd1 nd2 pd2).2 1 n st) ∧
  (uremGo ux1 ux2 yN nd1 pd1 nd2 pd2 1 n st =
    specSampleD linOff (uremDeltas ux1 ux2 yN nd1 pd1 nd2 pd2).1
      (uremDeltas ux1 ux2 yN nd1 pd1 nd2 pd2).2 1 n st) ∧
  (lshrGo x1 x2 yN nd1 pd1 nd2 pd2 1 n 1 st =
    specSample geomOff (lshrDeltas x1 x2 yN nd1 pd1 nd2 pd2).1
      (lshrDeltas x1 x2 yN nd1 pd1 nd2 pd2).2 1 n st) ∧
  (ashrGo x1 x2 yI nd1 pd1 nd2 pd2 1 n 1 st =
    specSample geomOff (ashrDeltas x1 x2 yI nd1 pd1 nd2 pd2).1
      (ashrDeltas x1 x2 yI nd1 pd1 nd2 pd2).2 1 n st) ∧
  (andGo x1 x2 yI nd1 pd1 nd2 pd2 1 n 1 st =
    specSample geomOff (andDeltas x1 x2 yI nd1 pd1 nd2 pd2).1
      (andDeltas x1 x2 yI nd1 pd1 nd2 pd2).2 1 n st)

/-- C7 counterexample: the claim classifies `Shl` with the geometric
schedule.  On the concrete call `combine(0, label with derivatives
(2/5, 2/5), SHL, x1 = 2, x2 = 1)` with 3 samples, the code's loop (linear
offsets 1, 2, 3) produces neg-derivative `2/3`, while the claimed geometric
sampler (offsets 1, 2, 4) produces `1/2`; the two are different float
values. -/
theorem shl_offsets_not_geometric :
    (combineInt noReuseFlags3 0 1 2 1 SHL "" stateQ).map
        (fun p => (p.1.info p.2).neg_dydx) = some (.val ⟨2, 3⟩) ∧
    (specSample geomOff
        (shlDeltas 2 1 (shl64 2 1) FVal.zero FVal.zero
          (.val ⟨2, 5⟩) (.val ⟨2, 5⟩)).1
        (shlDeltas 2 1 (shl64 2 1) FVal.zero FVal.zero
          (.val ⟨2, 5⟩) (.val ⟨2, 5⟩)).2
        1 3 (FVal.zero, FVal.zero)).1 = .val ⟨2, 4⟩ ∧
    FVal.feq (.val ⟨2, 3⟩) (.val ⟨2, 4⟩) = false :=
  ⟨by decide, by decide, by decide⟩

/-- C7 (amended): over any sample budget `n ≤ 32` (before the 32-bit offset
counter could wrap) and any operands and input derivatives, the sampled
arms of `DFSAN_INT_UNION` follow the spec's sampler with these schedules:
`Shl`, `Or`, `Xor` and the remainder opcodes `SRem`, `URem` perturb with the
linearly growing offset `k` at sample `k`, while `LShr`, `AShr`, `And`
perturb with the geometrically growing offset `2^(k-1)`; a one-sided
derivative keeps the first sampled output delta divided by the offset once
that quotient is no longer near zero. -/
theorem sampling_offset_schedules (x1 x2 : Int) (ux1 ux2 yN : Nat)
    (yI : Int) (nd1 pd1 nd2 pd2 : FVal) (n : Nat) (st : FVal × FVal)
    (hn : n ≤ 32) :
    schedulesMatch x1 x2 ux1 ux2 yN yI nd1 pd1 nd2 pd2 n st :=
  ⟨shlGo_spec x1 x2 yI nd1 pd1 nd2 pd2 n 1 st,
   orGo_spec x1 x2 yI nd1 pd1 nd2 pd2 n 1 st,
   xorGo_spec x1 x2 yI nd1 pd1 nd2 pd2 n 1 st,
   sremGo_spec x1 x2 yI nd1 pd1 nd2 pd2 n 1 st,
   uremGo_spec ux1 ux2 yN nd1 pd1 nd2 pd2 n 1 st,
   lshrGo_spec x1 x2 yN nd1 pd1 nd2 pd2 n 1 1 st rfl (by omega) (by omega),
   ashrGo_spec x1 x2 yI nd1 pd1 nd2 pd2 n 1 1 st rfl (by omega) (by omega),
   andGo_spec x1 x2 yI nd1 pd1 nd2 pd2 n 1 1 st rfl (by omega) (by omega)⟩

/-- C7 witness: the schedules agree on a concrete instance (3 samples,
operands `6` and `2`, derivatives `(1, 1)` and `(1/2, 1/2)`). -/
theorem sampling_offset_schedules_witness :
    3 ≤ 32 ∧
    schedulesMatch 6 2 6 2 1 12 FVal.one FVal.one
      (.val ⟨1, 2⟩) (.val ⟨1, 2⟩) 3 (FVal.zero, FVal.zero) :=
  ⟨by decide,
   sampling_offset_schedules 6 2 6 2 1 12 FVal.one FVal.one
     (.val ⟨1, 2⟩) (.val ⟨1, 2⟩) 3 (FVal.zero, FVal.zero) (by decide)⟩
